import Mathlib

/-!
Verification development for the data-availability-committee repository.

The Python source is embedded shallowly:
* byte strings are `List Nat` (each element a byte value);
* Python dicts that are only read through key lookup are association lists,
  with `alookup` mirroring `dict.__getitem__` (first binding wins, matching
  the unique-key discipline of Python dicts);
* the asynchronous storage interface is explicit state passing over an
  association list of string keys;
* the Merkle `update` engine and the empty-tree fact writer live in modules
  that are not part of the sources at hand, so the committee loop takes them
  as oracle functions (`treeUpdate`, `emptyRoot`); every property proved about
  the loop holds for all oracles, hence for the real implementations.
-/

abbrev Bytes := List Nat

/-- Association-list lookup, mirroring Python dict lookup by key. -/
def alookup {α : Type} {β : Type} [DecidableEq α] (k : α) : List (α × β) → Option β
  | [] => none
  | (k', v) :: rest => if k' = k then some v else alookup k rest

@[simp] theorem alookup_nil {α β : Type} [DecidableEq α] (k : α) :
    alookup (β := β) k [] = none := rfl

theorem alookup_cons {α β : Type} [DecidableEq α] (k k' : α) (v : β) (l : List (α × β)) :
    alookup k ((k', v) :: l) = if k' = k then some v else alookup k l := rfl

theorem alookup_append {α β : Type} [DecidableEq α] (k : α) (l₁ l₂ : List (α × β)) :
    alookup k (l₁ ++ l₂) =
      match alookup k l₁ with
      | some v => some v
      | none => alookup k l₂ := by
  induction l₁ with
  | nil => simp [alookup]
  | cons p rest ih =>
    obtain ⟨k', v⟩ := p
    by_cases h : k' = k <;> simp [alookup, h, ih]

/-- Remove every binding of key `k`, mirroring `del d[k]` on a unique-key dict. -/
def eraseKey {α β : Type} [DecidableEq α] (k : α) : List (α × β) → List (α × β)
  | [] => []
  | (k', v) :: rest => if k' = k then eraseKey k rest else (k', v) :: eraseKey k rest

theorem alookup_eraseKey_ne {α β : Type} [DecidableEq α] (k a : α) (l : List (α × β))
    (h : k ≠ a) : alookup k (eraseKey a l) = alookup k l := by
  induction l with
  | nil => rfl
  | cons p rest ih =>
    obtain ⟨k', v⟩ := p
    by_cases hk : k' = a
    · have hkk : ¬ k' = k := by subst hk; exact fun hkk => h hkk.symm
      simp [eraseKey, hk, alookup, hkk, ih, Ne.symm h]
    · by_cases hkk : k' = k <;> simp [eraseKey, hk, hkk, alookup, ih, h]

/-! ### Hex encoding and decoding (`bytes.hex` / `bytes.fromhex`) -/

/-- Value of a single hex digit, accepting both cases, as `bytes.fromhex` does. -/
def hexValue? (c : Char) : Option Nat :=
  if '0' ≤ c ∧ c ≤ '9' then some (c.toNat - '0'.toNat)
  else if 'a' ≤ c ∧ c ≤ 'f' then some (c.toNat - 'a'.toNat + 10)
  else if 'A' ≤ c ∧ c ≤ 'F' then some (c.toNat - 'A'.toNat + 10)
  else none

/-- Decode a list of hex characters two at a time; odd length or a non-hex
character fails, as `bytes.fromhex` raises `ValueError`. -/
def bytesFromHexList : List Char → Option Bytes
  | [] => some []
  | [_] => none
  | c1 :: c2 :: rest =>
    match hexValue? c1, hexValue? c2, bytesFromHexList rest with
    | some h, some lo, some tail => some ((16 * h + lo) :: tail)
    | _, _, _ => none

/-- `bytes.fromhex` on a string (no 0x prefix). -/
def bytesFromHex? (s : String) : Option Bytes :=
  bytesFromHexList s.toList

/-- Lowercase hex digit for a value below 16, as produced by `bytes.hex`. -/
def hexDigitChar (n : Nat) : Char :=
  if n < 10 then Char.ofNat ('0'.toNat + n) else Char.ofNat ('a'.toNat + n - 10)

/-- `bytes.hex()`: two lowercase digits per byte. -/
def bytesToHex (bs : Bytes) : String :=
  String.mk (bs.foldr (fun b acc => hexDigitChar (b / 16 % 16) :: hexDigitChar (b % 16) :: acc) [])

/-! ### Storage model

Keys are strings; values are either serialized `CommitteeBatchInfo` objects or
decimal-encoded integers.  `set_value` shadows by consing; `get_value` takes the
most recent binding, which matches overwrite semantics of the key-value store.
A value of the wrong kind under a key deserializes with an error in Python; the
iteration aborts either way, so the model reads it as absent.
-/

/-- `CommitteeBatchInfo`: named merkle roots plus the committee's own sequence
number (`committee.py`). -/
structure CommitteeBatchInfo where
  merkle_roots : List (String × Bytes)
  sequence_number : Int
deriving DecidableEq, Repr

inductive StorageValue where
  | info (b : CommitteeBatchInfo)
  | intVal (n : Int)
deriving DecidableEq, Repr

abbrev Storage := List (String × StorageValue)

def Storage.getValue (s : Storage) (k : String) : Option StorageValue :=
  alookup k s

def Storage.setValue (s : Storage) (k : String) (v : StorageValue) : Storage :=
  (k, v) :: s

@[simp] theorem Storage.getValue_setValue_self (s : Storage) (k : String) (v : StorageValue) :
    (s.setValue k v).getValue k = some v := by
  simp [Storage.getValue, Storage.setValue, alookup]

theorem Storage.getValue_setValue_ne (s : Storage) (k k' : String) (v : StorageValue)
    (h : k' ≠ k) : (s.setValue k' v).getValue k = s.getValue k := by
  simp [Storage.getValue, Storage.setValue, alookup, h]

/-! ### The state update and the committee keys -/

/-- The slice of `StateUpdateBase` the committee loop reads: the reference batch
id and the operator's declared roots (hex strings, no 0x prefix).  The per-name
leaf modifications are consumed only by the tree-update oracle. -/
structure StateUpdate where
  prev_batch_id : Int
  roots : List (String × String)
deriving DecidableEq, Repr

def next_batch_id_key : String := "committee_next_batch_id"

def committee_batch_info_key (batch_id : Int) : String :=
  "new_committee_batch_info:" ++ toString batch_id

def old_committee_batch_info_key (batch_id : Int) : String :=
  "committee_batch_info:" ++ toString batch_id

/-- `OBSOLETE_ORDER_TREE_ROOT_STR = "DEADBEEF" * 8` (starkex_constants.py). -/
def OBSOLETE_ORDER_TREE_ROOT_STR : String :=
  "DEADBEEFDEADBEEFDEADBEEFDEADBEEFDEADBEEFDEADBEEFDEADBEEFDEADBEEF"

/-- `Committee.get_committee_batch_info`: read the new key; fall back to the
legacy key, migrating the value to the new key on a hit. -/
def get_committee_batch_info (storage : Storage) (batch_id : Int) :
    Storage × Option CommitteeBatchInfo :=
  match storage.getValue (committee_batch_info_key batch_id) with
  | some (.info b) => (storage, some b)
  | _ =>
    match storage.getValue (old_committee_batch_info_key batch_id) with
    | some (.info b) =>
      (storage.setValue (committee_batch_info_key batch_id) (.info b), some b)
    | _ => (storage, none)

/-- `Committee.compute_initial_batch_info`: empty-tree roots for every
configured object, sequence number `-1`, stored at batch id `-1`. -/
def compute_initial_batch_info (cfg : List (String × Nat)) (emptyRoot : String → Bytes)
    (storage : Storage) : Storage :=
  storage.setValue (committee_batch_info_key (-1))
    (.info ⟨cfg.map (fun p => (p.1, emptyRoot p.1)), -1⟩)

/-! ### The batch-validation pipeline (`Committee.validate_data_availability`) -/

/-- The set of object names whose trees the committee recomputes:
all configured names, minus `order` when `validate_orders` is off, minus
`rollup_vault` when `validate_rollup` is explicitly `False`. -/
def validatedNames (cfg : List (String × Nat)) (validate_orders : Bool)
    (validate_rollup : Option Bool) : List String :=
  let names := cfg.map Prod.fst
  let v1 := if validate_orders then names else names.erase "order"
  if validate_rollup = some false then v1.erase "rollup_vault" else v1

/-- The previous batch's roots, with an empty `rollup_vault` root synthesized
when that object is configured but missing from the previous info. -/
def prevRootsWithRollup (cfg : List (String × Nat)) (emptyRoot : String → Bytes)
    (prev : CommitteeBatchInfo) : List (String × Bytes) :=
  if "rollup_vault" ∈ cfg.map Prod.fst ∧
      ¬ "rollup_vault" ∈ prev.merkle_roots.map Prod.fst then
    prev.merkle_roots ++ [("rollup_vault", emptyRoot "rollup_vault")]
  else prev.merkle_roots

/-- `compute_merkle_root` gathered over the validated names: each runs
`tree.update` (the oracle `treeUpdate`) from the previous root; a missing
previous root is a `KeyError`. -/
def computeRoots (treeUpdate : String → Bytes → Bytes) (prevRoots : List (String × Bytes)) :
    List String → Option (List (String × Bytes))
  | [] => some []
  | n :: rest =>
    match alookup n prevRoots with
    | none => none
    | some r =>
      match computeRoots treeUpdate prevRoots rest with
      | none => none
      | some rd => some ((n, treeUpdate n r) :: rd)

/-- The per-name verification loop: a declared `order` root equal to the
obsolete sentinel is accepted without comparison; a validated name must match
the recomputed root (`root.hex() == expected_root`); other names are accepted
blindly.  Returns the names actually compared. -/
def checkRoots (suRoots : List (String × String)) (roots_dict : List (String × Bytes))
    (validated : List String) : List String → Option (List String)
  | [] => some []
  | n :: rest =>
    match alookup n suRoots with
    | none => none
    | some expected =>
      if n = "order" ∧ expected = OBSOLETE_ORDER_TREE_ROOT_STR then
        checkRoots suRoots roots_dict validated rest
      else if n ∈ validated then
        match alookup n roots_dict with
        | none => none
        | some root =>
          if bytesToHex root = expected then
            match checkRoots suRoots roots_dict validated rest with
            | none => none
            | some compared => some (n :: compared)
          else none
      else checkRoots suRoots roots_dict validated rest

/-- Hex-decode every declared root (`bytes.fromhex` over the state update's
roots dict); a malformed string aborts the iteration. -/
def decodeRoots : List (String × String) → Option (List (String × Bytes))
  | [] => some []
  | (k, v) :: rest =>
    match bytesFromHex? v with
    | none => none
    | some b =>
      match decodeRoots rest with
      | none => none
      | some ds => some ((k, b) :: ds)

/-- Python `dict.update`: bindings of `upd` take precedence over `base`.
Iteration order of the result is never observed by the committee, so the map
is represented with the overriding bindings in front. -/
def dictUpdate (base upd : List (String × Bytes)) : List (String × Bytes) :=
  upd ++ base

/-- The pure core of `Committee.validate_data_availability`, given the
previous batch info: recompute the validated roots, verify them against the
declared roots, and compose the new batch info.  `none` models an exception
aborting the iteration (`list.remove` `ValueError`s, assertion failures,
`KeyError`s, hex decoding errors, root mismatches). -/
def validate_core (cfg : List (String × Nat)) (emptyRoot : String → Bytes)
    (treeUpdate : String → Bytes → Bytes) (prev : CommitteeBatchInfo) (su : StateUpdate)
    (validate_orders : Bool) (validate_rollup : Option Bool) :
    Option (CommitteeBatchInfo × List String) :=
  let names := cfg.map Prod.fst
  let prevRoots := prevRootsWithRollup cfg emptyRoot prev
  if ¬ validate_orders = true ∧ ¬ "order" ∈ names then none
  else if validate_rollup = some false ∧ ¬ "rollup_vault" ∈ names then none
  else
    let validated := validatedNames cfg validate_orders validate_rollup
    if validate_rollup = none ∧ "rollup_vault" ∈ validated then none
    else
      match computeRoots treeUpdate prevRoots validated with
      | none => none
      | some roots_dict =>
        match checkRoots su.roots roots_dict validated names with
        | none => none
        | some compared =>
          match decodeRoots su.roots with
          | none => none
          | some declared =>
            some (⟨dictUpdate declared roots_dict, prev.sequence_number + 1⟩, compared)

structure ValidateResult where
  storage : Storage
  outcome : Option (CommitteeBatchInfo × List String)

/-- `Committee.validate_data_availability`: read the previous batch info
(failing the iteration when absent), run the pure verification core, and on
success persist the new batch info under the new-format key.  The write is the
only mutation of the committee storage inside the call. -/
def validate_data_availability (cfg : List (String × Nat)) (emptyRoot : String → Bytes)
    (treeUpdate : String → Bytes → Bytes) (storage : Storage) (batch_id : Int)
    (su : StateUpdate) (validate_orders : Bool) (validate_rollup : Option Bool) :
    ValidateResult :=
  match get_committee_batch_info storage su.prev_batch_id with
  | (storage1, none) => ⟨storage1, none⟩
  | (storage1, some prev) =>
    match validate_core cfg emptyRoot treeUpdate prev su validate_orders validate_rollup with
    | none => ⟨storage1, none⟩
    | some (bi, compared) =>
      ⟨storage1.setValue (committee_batch_info_key batch_id) (.info bi), some (bi, compared)⟩

/-- One pass of the `Committee.run` polling loop for one batch id.
`batchData` is the gateway response (`none` while the batch is not ready),
`thirdPartyValid` the `is_valid` hook's verdict, `sendOk` whether the
signature submission succeeds.  Returns the storage and the next batch id;
a caught exception leaves the id unchanged. -/
def run_iteration (cfg : List (String × Nat)) (emptyRoot : String → Bytes)
    (treeUpdate : String → Bytes → Bytes) (storage : Storage) (next_batch_id : Int)
    (batchData : Option StateUpdate) (thirdPartyValid : Bool) (sendOk : Bool)
    (validate_orders : Bool) (validate_rollup : Option Bool) : Storage × Int :=
  match batchData with
  | none => (storage, next_batch_id)
  | some su =>
    if thirdPartyValid = false then (storage, next_batch_id)
    else
      let r := validate_data_availability cfg emptyRoot treeUpdate storage next_batch_id su
        validate_orders validate_rollup
      match r.outcome with
      | none => (r.storage, next_batch_id)
      | some _ =>
        if sendOk then
          ((r.storage.setValue next_batch_id_key (.intVal (next_batch_id + 1))),
            next_batch_id + 1)
        else (r.storage, next_batch_id)

/-- `Committee.compute_hash_availability_claim`: the claim covers exactly the
two non-rollup objects (the vault-or-position tree and the order tree), their
heights, and the sequence number.  `hash_availability_claim` itself lives
outside these sources; it enters as the abstract parameter `hac`, so every
property below holds for the real encoding. -/
def compute_hash_availability_claim (cfg : List (String × Nat))
    (hac : Bytes → Nat → Bytes → Nat → Int → Bytes) (bi : CommitteeBatchInfo) :
    Option Bytes :=
  let hash_object_names := (cfg.map Prod.fst).filter (fun n => n ≠ "rollup_vault")
  if hash_object_names.length = 2 then
    let vaults_object_name := if "vault" ∈ hash_object_names then "vault" else "position"
    if "order" ∈ hash_object_names then
      match alookup vaults_object_name bi.merkle_roots, alookup vaults_object_name cfg,
        alookup "order" bi.merkle_roots, alookup "order" cfg with
      | some vr, some vh, some orr, some oh =>
        some (hac vr vh orr oh bi.sequence_number)
      | _, _, _, _ => none
    else none
  else none

/-! ### Merkle trees (`merkle_tree.py`)

The fact store maps a fact hash to its serialized value; a leaf is stored under
its own hash, an inner node under `hash_func(left, right)` with value
`left ++ right` (64 bytes). -/

abbrev FactStore := List (Bytes × Bytes)

/-- `write_node_fact`: hash the `(left, right)` node fact, store its
serialization (the concatenation of the two child hashes), return the hash. -/
def write_node_fact (hash_func : Bytes → Bytes → Bytes) (store : FactStore)
    (left right : Bytes) : FactStore × Bytes :=
  let h := hash_func left right
  ((h, left ++ right) :: store, h)

structure MerkleTree where
  root : Bytes
  height : Nat
deriving DecidableEq, Repr

/-- `MerkleTree.empty_tree`: write the leaf fact, then walk upward `height`
times, each step synthesizing an inner node whose two children are the
previous root.  `leafHash` is the leaf fact's `_hash`, `leafSer` its
serialization (what `set_fact` persists). -/
def MerkleTree.empty_tree (hash_func : Bytes → Bytes → Bytes) (leafHash leafSer : Bytes)
    (store : FactStore) : Nat → FactStore × MerkleTree
  | 0 => ((leafHash, leafSer) :: store, ⟨leafHash, 0⟩)
  | h + 1 =>
    let prev := MerkleTree.empty_tree hash_func leafHash leafSer store h
    let written := write_node_fact hash_func prev.1 prev.2.root prev.2.root
    (written.1, ⟨written.2, h + 1⟩)

/-- `MerkleTree.empty_tree_roots`: the pure sequence starting at the empty
leaf's hash, each next entry hashing the previous with itself. -/
def MerkleTree.empty_tree_roots (hash_func : Bytes → Bytes → Bytes) (leafHash : Bytes) :
    Nat → List Bytes
  | 0 => [leafHash]
  | h + 1 =>
    let roots := MerkleTree.empty_tree_roots hash_func leafHash h
    roots ++ [hash_func (roots.getLastD []) (roots.getLastD [])]

/-! ### Merkle tree nodes (`merkle_tree_node.py`) -/

def HASH_BYTES : Nat := 32

structure MerkleTreeNode where
  root : Bytes
  height : Int
deriving DecidableEq, Repr

/-- `read_node_fact` composed with `MerkleNodeFact.deserialize`: look the hash
up in the fact store and split the 64-byte value into the two child hashes;
a value of the wrong length fails the deserialization assert. -/
def read_node_fact (store : FactStore) (fact_hash : Bytes) : Option (Bytes × Bytes) :=
  match alookup fact_hash store with
  | none => none
  | some data =>
    if data.length = 2 * HASH_BYTES then some (data.take HASH_BYTES, data.drop HASH_BYTES)
    else none

/-- `MerkleTreeNode.get_children`: subtrees of height one less, roots taken
from the node fact. -/
def MerkleTreeNode.get_children (store : FactStore) (node : MerkleTreeNode) :
    Option (MerkleTreeNode × MerkleTreeNode) :=
  match read_node_fact store node.root with
  | none => none
  | some (l, r) => some (⟨l, node.height - 1⟩, ⟨r, node.height - 1⟩)

/-- Little-endian binary digits of `n` (empty for 0), with explicit fuel so the
function evaluates by reduction; `natBits n` uses fuel `n`. -/
def natBitsGo : Nat → Nat → List Bool
  | 0, _ => []
  | fuel + 1, n => if n = 0 then [] else decide (n % 2 = 1) :: natBitsGo fuel (n / 2)

def natBits (n : Nat) : List Bool := natBitsGo n n

/-- The left/right directions encoded by `bin(index)[2:]` after dropping the
leading digit: most-significant first, `false` = left, `true` = right. -/
def nodeDirs (index : Nat) : List Bool :=
  ((natBits index).reverse).drop 1

/-- The descent loop of `get_node`: follow each direction through
`get_children`, failing when a required node fact is missing. -/
def MerkleTreeNode.descend (store : FactStore) (node : MerkleTreeNode) :
    List Bool → Option MerkleTreeNode
  | [] => some node
  | d :: ds =>
    match node.get_children store with
    | none => none
    | some (l, r) => MerkleTreeNode.descend store (if d then r else l) ds

/-- `MerkleTreeNode.get_node`: node at the given binary-tree-in-array index,
where 1 is self, 2 the left child, 3 the right child, and so on. -/
def MerkleTreeNode.get_node (store : FactStore) (node : MerkleTreeNode) (index : Nat) :
    Option MerkleTreeNode :=
  node.descend store (nodeDirs index)

/-! ### HTTP retry policy (`http_handler.py`, `availability_gateway_client.py`)

A request attempt is driven by the environment: `outcomes n` is what the n-th
attempt observes (a 200 body, a bad HTTP status, or a transport timeout).  The
model returns the final result together with the list of sleep durations
(seconds) taken between attempts. -/

inductive HttpOutcome where
  | ok (text : String)
  | badHttp (status : Nat)
  | timeout
deriving DecidableEq, Repr

inductive HttpFailure where
  | badHttp (status : Nat)
  | timeout
deriving DecidableEq, Repr

inductive HttpError where
  | failure (f : HttpFailure)
  | tooManyAttempts (attempts : Nat) (last : HttpFailure)
deriving DecidableEq, Repr

structure HttpRetryPolicy where
  retry_count : Nat
  timeout_gen : Nat → Nat
  retry_error_codes : List Nat

/-- `HttpRetryPolicy.retry_exception`: `BadHttpRequest` retries iff its status
is in the configured codes; `asyncio.TimeoutError` always retries. -/
def HttpRetryPolicy.retry_exception (p : HttpRetryPolicy) : HttpFailure → Bool
  | .badHttp s => p.retry_error_codes.contains s
  | .timeout => true

/-- The attempt loop of `send_http_request`: up to `retry_count` in-loop
attempts, sleeping `timeout_gen attempt` after each retryable failure,
re-raising a non-retryable failure immediately; one final attempt afterwards
whose failure (of any kind) is wrapped in `TooManyAttempts`. -/
def sendLoop (p : HttpRetryPolicy) (outcomes : Nat → HttpOutcome) :
    Nat → Nat → List Nat → Except HttpError String × List Nat
  | attempt, 0, sleeps =>
    match outcomes attempt with
    | .ok t => (.ok t, sleeps)
    | .badHttp s => (.error (.tooManyAttempts p.retry_count (.badHttp s)), sleeps)
    | .timeout => (.error (.tooManyAttempts p.retry_count .timeout), sleeps)
  | attempt, remaining + 1, sleeps =>
    match outcomes attempt with
    | .ok t => (.ok t, sleeps)
    | .badHttp s =>
      if p.retry_error_codes.contains s then
        sendLoop p outcomes (attempt + 1) remaining (sleeps ++ [p.timeout_gen attempt])
      else (.error (.failure (.badHttp s)), sleeps)
    | .timeout =>
      sendLoop p outcomes (attempt + 1) remaining (sleeps ++ [p.timeout_gen attempt])

/-- `HttpRetryPolicy.send_http_request`. -/
def send_http_request (p : HttpRetryPolicy) (outcomes : Nat → HttpOutcome) :
    Except HttpError String × List Nat :=
  sendLoop p outcomes 0 p.retry_count []

/-- The retry policy the availability gateway client constructs: 9 in-loop
retries, waits of `attempt + 1` seconds, retry on 502/503/504. -/
def gatewayRetryPolicy : HttpRetryPolicy :=
  ⟨9, fun i => i + 1, [502, 503, 504]⟩

/-- Whether an attempt outcome makes the loop retry under the gateway policy. -/
def gatewayRetryFails (o : HttpOutcome) : Bool :=
  match o with
  | .ok _ => false
  | .badHttp s => gatewayRetryPolicy.retry_error_codes.contains s
  | .timeout => true

/-! ### StarkEx vault state (`starkex_state.py`) -/

def MAX_AMOUNT : Int := 2 ^ 63

structure VaultState where
  stark_key : Int
  token : Int
  balance : Int
deriving DecidableEq, Repr

/-- `VaultState.__post_init__` folded into a checked constructor: the balance
must lie in `[0, 2^63)`; a zero balance silently normalizes the key and the
token to 0; a positive balance requires both to be nonzero. -/
def VaultState.mkChecked (stark_key token balance : Int) : Option VaultState :=
  if 0 ≤ balance ∧ balance < MAX_AMOUNT then
    if balance = 0 then some ⟨0, 0, 0⟩
    else if 0 ≠ stark_key then
      if 0 ≠ token then some ⟨stark_key, token, balance⟩ else none
    else none
  else none

/-! ### Perpetual position state (`state_objects.py`) -/

namespace Perpetual

def BALANCE_UPPER_BOUND : Int := 2 ^ 63
def BALANCE_LOWER_BOUND : Int := -BALANCE_UPPER_BOUND
def FUNDING_INDEX_UPPER_BOUND : Int := 2 ^ 63
def FUNDING_INDEX_LOWER_BOUND : Int := -(2 ^ 63)
def N_ASSETS_UPPER_BOUND : Int := 2 ^ 16

/-- `to_bytes`: 32-byte big-endian encoding of a nonnegative integer. -/
def to_bytes (value : Int) : Bytes :=
  (List.range 32).map (fun i => (value.toNat / 256 ^ (31 - i)) % 256)

structure PositionAsset where
  balance : Int
  cached_funding_index : Int
deriving DecidableEq, Repr

/-- `PositionAsset.calculate_message`: pack the asset id, the shifted funding
index and the shifted balance into one field element, then encode. -/
def PositionAsset.calculate_message (a : PositionAsset) (asset_id : Int) : Bytes :=
  let balance_range_size := BALANCE_UPPER_BOUND - BALANCE_LOWER_BOUND
  let funding_index_range_size := FUNDING_INDEX_UPPER_BOUND - FUNDING_INDEX_LOWER_BOUND
  let asset_packed :=
    asset_id * funding_index_range_size + (a.cached_funding_index - FUNDING_INDEX_LOWER_BOUND)
  let asset_packed := asset_packed * balance_range_size + (a.balance - BALANCE_LOWER_BOUND)
  to_bytes asset_packed

structure PositionState where
  public_key : Int
  collateral_balance : Int
  assets : List (Int × PositionAsset)
deriving DecidableEq, Repr

/-- Key order on asset entries, as `sorted(self.assets.items())` compares
tuples whose first components (the asset ids) are distinct. -/
def assetLE (a b : Int × PositionAsset) : Prop := a.1 ≤ b.1

instance : DecidableRel assetLE := fun a b => inferInstanceAs (Decidable (a.1 ≤ b.1))

/-- `PositionState._hash`: fold the messages of the assets, sorted by asset
id, starting from 32 zero bytes; then combine with the public key and the
packed collateral balance and asset count. -/
def PositionState.hashFact (hash_func : Bytes → Bytes → Bytes) (p : PositionState) : Bytes :=
  let position_packed :=
    (p.collateral_balance - BALANCE_LOWER_BOUND) * N_ASSETS_UPPER_BOUND + p.assets.length
  let asset_msgs :=
    (p.assets.insertionSort assetLE).map (fun q => q.2.calculate_message q.1)
  let assets_hash := asset_msgs.foldl hash_func (List.replicate HASH_BYTES 0)
  hash_func (hash_func assets_hash (to_bytes p.public_key)) (to_bytes position_packed)

end Perpetual

/-! ### Helper lemmas -/

theorem compute_hash_depends (cfg : List (String × Nat))
    (hac : Bytes → Nat → Bytes → Nat → Int → Bytes) (bi₁ bi₂ : CommitteeBatchInfo)
    (hv : alookup "vault" bi₁.merkle_roots = alookup "vault" bi₂.merkle_roots)
    (hp : alookup "position" bi₁.merkle_roots = alookup "position" bi₂.merkle_roots)
    (ho : alookup "order" bi₁.merkle_roots = alookup "order" bi₂.merkle_roots)
    (hs : bi₁.sequence_number = bi₂.sequence_number) :
    compute_hash_availability_claim cfg hac bi₁ = compute_hash_availability_claim cfg hac bi₂ := by
  simp only [compute_hash_availability_claim]
  by_cases hlen : ((cfg.map Prod.fst).filter (fun n => n ≠ "rollup_vault")).length = 2
  · simp only [if_pos hlen]
    by_cases hvm : "vault" ∈ (cfg.map Prod.fst).filter (fun n => n ≠ "rollup_vault")
    · simp only [if_pos hvm, hv, ho, hs]
    · simp only [if_neg hvm, hp, ho, hs]
  · simp only [if_neg hlen]

theorem MerkleTree.empty_tree_roots_length (hash_func : Bytes → Bytes → Bytes)
    (leafHash : Bytes) (h : Nat) :
    (MerkleTree.empty_tree_roots hash_func leafHash h).length = h + 1 := by
  induction h with
  | zero => rfl
  | succ h ih => simp [MerkleTree.empty_tree_roots, ih]

theorem MerkleTree.empty_tree_root_succ (hash_func : Bytes → Bytes → Bytes)
    (leafHash leafSer : Bytes) (store : FactStore) (h : Nat) :
    ((MerkleTree.empty_tree hash_func leafHash leafSer store (h + 1)).2).root =
      hash_func ((MerkleTree.empty_tree hash_func leafHash leafSer store h).2).root
        ((MerkleTree.empty_tree hash_func leafHash leafSer store h).2).root := by
  simp [MerkleTree.empty_tree, write_node_fact]

theorem MerkleTree.empty_tree_roots_getLastD (hash_func : Bytes → Bytes → Bytes)
    (leafHash leafSer : Bytes) (store : FactStore) (h : Nat) :
    (MerkleTree.empty_tree_roots hash_func leafHash h).getLastD [] =
      ((MerkleTree.empty_tree hash_func leafHash leafSer store h).2).root := by
  induction h with
  | zero => rfl
  | succ h ih =>
    simp only [MerkleTree.empty_tree_roots, List.getLastD_concat,
      MerkleTree.empty_tree_root_succ, ih]

/-! ### Claim theorems -/

/-- C6: for every height `h ≥ 0` and every leaf fact, the root of the tree
returned by `MerkleTree.empty_tree h` equals element `h` of the list returned
by `MerkleTree.empty_tree_roots h` — the sequence starting at the leaf's hash
where each entry hashes the previous one with itself. -/
theorem claim6_empty_tree_stability (hash_func : Bytes → Bytes → Bytes)
    (leafHash leafSer : Bytes) (store : FactStore) (h : Nat) :
    (MerkleTree.empty_tree_roots hash_func leafHash h)[h]? =
      some ((MerkleTree.empty_tree hash_func leafHash leafSer store h).2).root := by
  induction h with
  | zero => rfl
  | succ h _ =>
    have hlen := MerkleTree.empty_tree_roots_length hash_func leafHash h
    have hlast := MerkleTree.empty_tree_roots_getLastD hash_func leafHash leafSer store h
    have key : ∀ (l : List Bytes) (x : Bytes), l.length = h + 1 → (l ++ [x])[h + 1]? = some x := by
      intro l x hl
      rw [← hl]
      exact List.getElem?_concat_length l x
    simp only [MerkleTree.empty_tree_roots]
    rw [key _ _ hlen, hlast, MerkleTree.empty_tree_root_succ]

/-- C9: every successfully constructed `VaultState` has a balance in
`[0, 2^63)`; a zero balance forces (by silent normalization) a zero key and
token, whatever was supplied; a positive balance forces both nonzero, and
construction fails otherwise. -/
theorem claim9_vault_state_invariant (sk t b : Int) :
    (∀ v : VaultState, VaultState.mkChecked sk t b = some v →
      (0 ≤ v.balance ∧ v.balance < MAX_AMOUNT) ∧
      (v.balance = 0 → v.stark_key = 0 ∧ v.token = 0) ∧
      (0 < v.balance → v.stark_key ≠ 0 ∧ v.token ≠ 0)) ∧
    (0 ≤ b → b < MAX_AMOUNT → b = 0 → VaultState.mkChecked sk t b = some ⟨0, 0, 0⟩) ∧
    ((¬ (0 ≤ b ∧ b < MAX_AMOUNT) ∨ (0 < b ∧ (sk = 0 ∨ t = 0))) →
      VaultState.mkChecked sk t b = none) := by
  unfold VaultState.mkChecked
  refine ⟨?_, ?_, ?_⟩
  · intro v hv
    by_cases hrange : 0 ≤ b ∧ b < MAX_AMOUNT
    · rw [if_pos hrange] at hv
      by_cases hb0 : b = 0
      · rw [if_pos hb0] at hv
        cases hv
        exact ⟨⟨le_refl 0, by norm_num [MAX_AMOUNT]⟩, fun _ => ⟨rfl, rfl⟩,
          fun h0 => absurd h0 (lt_irrefl 0)⟩
      · rw [if_neg hb0] at hv
        by_cases hsk : (0 : Int) ≠ sk
        · rw [if_pos hsk] at hv
          by_cases ht : (0 : Int) ≠ t
          · rw [if_pos ht] at hv
            cases hv
            exact ⟨hrange, fun h0 => absurd h0 hb0, fun _ => ⟨Ne.symm hsk, Ne.symm ht⟩⟩
          · rw [if_neg ht] at hv
            cases hv
        · rw [if_neg hsk] at hv
          cases hv
    · rw [if_neg hrange] at hv
      cases hv
  · intro h1 h2 h3
    subst h3
    norm_num [MAX_AMOUNT]
  · intro hcase
    rcases hcase with hout | ⟨hpos, hz⟩
    · rw [if_neg hout]
    · have hne : ¬ b = 0 := by omega
      by_cases hrange : 0 ≤ b ∧ b < MAX_AMOUNT
      · rw [if_pos hrange, if_neg hne]
        rcases hz with hsk | ht
        · rw [if_neg (show ¬ (0 : Int) ≠ sk by simp [hsk])]
        · by_cases hsk0 : (0 : Int) ≠ sk
          · rw [if_pos hsk0, if_neg (show ¬ (0 : Int) ≠ t by simp [ht])]
          · rw [if_neg hsk0]
      · rw [if_neg hrange]

/-- Witness for C9 at a concrete input. -/
theorem claim9_vault_state_invariant_witness :
    (0 : Int) ≤ 0 ∧ VaultState.mkChecked 5 7 0 = some ⟨0, 0, 0⟩ :=
  ⟨le_refl 0,
    (claim9_vault_state_invariant 5 7 0).2.1 (by norm_num) (by norm_num [MAX_AMOUNT]) rfl⟩

/-- C3: the availability-claim hash depends only on the vault-or-position
root, the order root, the configured heights and the sequence number; in
particular removing a `rollup_vault` entry from the batch info's roots leaves
the claim hash unchanged. -/
theorem claim3_rollup_excluded_from_claim (cfg : List (String × Nat))
    (hac : Bytes → Nat → Bytes → Nat → Int → Bytes) (bi : CommitteeBatchInfo) :
    compute_hash_availability_claim cfg hac
        ⟨eraseKey "rollup_vault" bi.merkle_roots, bi.sequence_number⟩ =
      compute_hash_availability_claim cfg hac bi ∧
    ∀ bi₂ : CommitteeBatchInfo,
      alookup "vault" bi.merkle_roots = alookup "vault" bi₂.merkle_roots →
      alookup "position" bi.merkle_roots = alookup "position" bi₂.merkle_roots →
      alookup "order" bi.merkle_roots = alookup "order" bi₂.merkle_roots →
      bi.sequence_number = bi₂.sequence_number →
      compute_hash_availability_claim cfg hac bi = compute_hash_availability_claim cfg hac bi₂ := by
  constructor
  · exact compute_hash_depends cfg hac _ bi
      (alookup_eraseKey_ne _ _ _ (by decide)) (alookup_eraseKey_ne _ _ _ (by decide))
      (alookup_eraseKey_ne _ _ _ (by decide)) rfl
  · intro bi₂ h1 h2 h3 h4
    exact compute_hash_depends cfg hac bi bi₂ h1 h2 h3 h4

/-- Witness for C3: a concrete configured pair of trees, a concrete claim-hash
function, and a batch info carrying a `rollup_vault` root. -/
theorem claim3_rollup_excluded_from_claim_witness :
    compute_hash_availability_claim [("vault", 31), ("order", 251), ("rollup_vault", 31)]
        (fun a _ b _ _ => a ++ b)
        ⟨[("vault", [1]), ("order", [2]), ("rollup_vault", [3])], 5⟩ =
      compute_hash_availability_claim [("vault", 31), ("order", 251), ("rollup_vault", 31)]
        (fun a _ b _ _ => a ++ b)
        ⟨[("vault", [1]), ("order", [2]), ("rollup_vault", [4]), ("extra", [9])], 5⟩ :=
  (claim3_rollup_excluded_from_claim [("vault", 31), ("order", 251), ("rollup_vault", 31)]
      (fun a _ b _ _ => a ++ b)
      ⟨[("vault", [1]), ("order", [2]), ("rollup_vault", [3])], 5⟩).2
    ⟨[("vault", [1]), ("order", [2]), ("rollup_vault", [4]), ("extra", [9])], 5⟩
    (by decide) (by decide) (by decide) rfl

theorem natBitsGo_congr (n : Nat) : ∀ f₁ f₂ : Nat, n ≤ f₁ → n ≤ f₂ →
    natBitsGo f₁ n = natBitsGo f₂ n := by
  induction n using Nat.strong_induction_on with
  | _ n ih =>
    intro f₁ f₂ h₁ h₂
    cases n with
    | zero => cases f₁ <;> cases f₂ <;> rfl
    | succ m =>
      cases f₁ with
      | zero => omega
      | succ g₁ =>
        cases f₂ with
        | zero => omega
        | succ g₂ =>
          simp only [natBitsGo, if_neg (Nat.succ_ne_zero m)]
          have hlt : (m + 1) / 2 < m + 1 := Nat.div_lt_self (Nat.succ_pos m) (by omega)
          have hg₁ : (m + 1) / 2 ≤ g₁ := by omega
          have hg₂ : (m + 1) / 2 ≤ g₂ := by omega
          rw [ih ((m + 1) / 2) hlt g₁ g₂ hg₁ hg₂]

theorem natBits_eq_fuel (n f : Nat) (h : n ≤ f) : natBitsGo f n = natBits n :=
  natBitsGo_congr n f n h (le_refl n)

theorem natBits_two_mul (i : Nat) (h : 1 ≤ i) :
    natBits (2 * i) = false :: natBits i := by
  obtain ⟨f, hf⟩ : ∃ f, 2 * i = f + 1 := ⟨2 * i - 1, by omega⟩
  have h2 : 2 * i ≠ 0 := by omega
  rw [natBits, hf, natBitsGo, if_neg (by omega : ¬ f + 1 = 0)]
  rw [← hf]
  have hmod : (2 * i) % 2 = 0 := by omega
  have hdiv : (2 * i) / 2 = i := by omega
  rw [hmod, hdiv]
  rw [natBits_eq_fuel i f (by omega)]
  rfl

theorem natBits_two_mul_add_one (i : Nat) :
    natBits (2 * i + 1) = true :: natBits i := by
  rw [natBits, natBitsGo, if_neg (by omega : ¬ 2 * i + 1 = 0)]
  have hmod : (2 * i + 1) % 2 = 1 := by omega
  have hdiv : (2 * i + 1) / 2 = i := by omega
  rw [hmod, hdiv]
  rw [natBits_eq_fuel i (2 * i) (by omega)]
  rfl

theorem natBits_ne_nil (i : Nat) (h : 1 ≤ i) : natBits i ≠ [] := by
  obtain ⟨f, hf⟩ : ∃ f, i = f + 1 := ⟨i - 1, by omega⟩
  rw [natBits, hf, natBitsGo, if_neg (by omega : ¬ f + 1 = 0)]
  exact List.cons_ne_nil _ _

theorem drop_one_append_single {α : Type} (l : List α) (x : α) (h : l ≠ []) :
    (l ++ [x]).drop 1 = l.drop 1 ++ [x] := by
  cases l with
  | nil => exact absurd rfl h
  | cons a t => rfl

theorem nodeDirs_two_mul (i : Nat) (h : 1 ≤ i) :
    nodeDirs (2 * i) = nodeDirs i ++ [false] := by
  unfold nodeDirs
  rw [natBits_two_mul i h, List.reverse_cons]
  exact drop_one_append_single _ _ (by
    simp only [ne_eq, List.reverse_eq_nil_iff]
    exact natBits_ne_nil i h)

theorem nodeDirs_two_mul_add_one (i : Nat) (h : 1 ≤ i) :
    nodeDirs (2 * i + 1) = nodeDirs i ++ [true] := by
  unfold nodeDirs
  rw [natBits_two_mul_add_one i, List.reverse_cons]
  exact drop_one_append_single _ _ (by
    simp only [ne_eq, List.reverse_eq_nil_iff]
    exact natBits_ne_nil i h)

theorem descend_append (store : FactStore) (n : MerkleTreeNode) (ds : List Bool) (d : Bool) :
    MerkleTreeNode.descend store n (ds ++ [d]) =
      match MerkleTreeNode.descend store n ds with
      | none => none
      | some m =>
        match m.get_children store with
        | none => none
        | some (l, r) => some (if d then r else l) := by
  induction ds generalizing n with
  | nil =>
    simp only [List.nil_append, MerkleTreeNode.descend]
  | cons b ds ih =>
    simp only [List.cons_append, MerkleTreeNode.descend]
    cases hc : n.get_children store with
    | none => rfl
    | some p =>
      obtain ⟨l, r⟩ := p
      exact ih _

/-- C7: array-style tree indexing in `get_node`: index 1 is the node itself,
and for every index `i ≥ 1` the nodes at `2*i` and `2*i + 1` are the left and
right children of the node at `i` — the binary digits of the index after the
leading 1 drive the left/right descent. -/
theorem claim7_get_node_indexing (store : FactStore) (t : MerkleTreeNode) (i : Nat)
    (h : 1 ≤ i) :
    MerkleTreeNode.get_node store t 1 = some t ∧
    MerkleTreeNode.get_node store t (2 * i) =
      (MerkleTreeNode.get_node store t i).bind
        (fun n => (n.get_children store).map Prod.fst) ∧
    MerkleTreeNode.get_node store t (2 * i + 1) =
      (MerkleTreeNode.get_node store t i).bind
        (fun n => (n.get_children store).map Prod.snd) := by
  refine ⟨rfl, ?_, ?_⟩
  · rw [MerkleTreeNode.get_node, nodeDirs_two_mul i h, descend_append]
    simp only [MerkleTreeNode.get_node]
    cases hd : MerkleTreeNode.descend store t (nodeDirs i) with
    | none => rfl
    | some m =>
      cases hc : m.get_children store with
      | none => simp [hc]
      | some p =>
        obtain ⟨l, r⟩ := p
        simp [hc]
  · rw [MerkleTreeNode.get_node, nodeDirs_two_mul_add_one i h, descend_append]
    simp only [MerkleTreeNode.get_node]
    cases hd : MerkleTreeNode.descend store t (nodeDirs i) with
    | none => rfl
    | some m =>
      cases hc : m.get_children store with
      | none => simp [hc]
      | some p =>
        obtain ⟨l, r⟩ := p
        simp [hc]

/-- Witness for C7: a concrete two-level store where the children of the root
are reached at indices 2 and 3. -/
theorem claim7_get_node_indexing_witness :
    1 ≤ 1 ∧
    MerkleTreeNode.get_node [(List.replicate 32 1, List.replicate 32 2 ++ List.replicate 32 3)]
        ⟨List.replicate 32 1, 5⟩ 2 =
      (MerkleTreeNode.get_node
          [(List.replicate 32 1, List.replicate 32 2 ++ List.replicate 32 3)]
          ⟨List.replicate 32 1, 5⟩ 1).bind
        (fun n =>
          (n.get_children [(List.replicate 32 1, List.replicate 32 2 ++ List.replicate 32 3)]).map
            Prod.fst) :=
  ⟨le_refl 1,
    (claim7_get_node_indexing
        [(List.replicate 32 1, List.replicate 32 2 ++ List.replicate 32 3)]
        ⟨List.replicate 32 1, 5⟩ 1 (le_refl 1)).2.1⟩

namespace Perpetual

/-- Strict key order on asset entries; used to identify the two sorted lists. -/
def assetLT (a b : Int × PositionAsset) : Prop := a.1 < b.1

theorem insertionSort_eq_of_perm (l₁ l₂ : List (Int × PositionAsset))
    (hperm : l₁.Perm l₂) (hnd : (l₁.map Prod.fst).Nodup) :
    l₁.insertionSort assetLE = l₂.insertionSort assetLE := by
  haveI instTotal : IsTotal (Int × PositionAsset) assetLE :=
    ⟨fun a b => Int.le_total a.1 b.1⟩
  haveI instTrans : IsTrans (Int × PositionAsset) assetLE :=
    ⟨fun a b c hab hbc => le_trans hab hbc⟩
  haveI instAnti : IsAntisymm (Int × PositionAsset) assetLT :=
    ⟨fun a b hab hba => absurd hba (lt_asymm hab)⟩
  have h₁p : (l₁.insertionSort assetLE).Perm l₁ := List.perm_insertionSort assetLE l₁
  have h₂p : (l₂.insertionSort assetLE).Perm l₂ := List.perm_insertionSort assetLE l₂
  have hs₁ : (l₁.insertionSort assetLE).Sorted assetLE := List.sorted_insertionSort assetLE l₁
  have hs₂ : (l₂.insertionSort assetLE).Sorted assetLE := List.sorted_insertionSort assetLE l₂
  have hne₁ : l₁.Pairwise (fun a b => a.1 ≠ b.1) := by
    rw [← List.pairwise_map]
    exact hnd
  have hnes₁ : (l₁.insertionSort assetLE).Pairwise (fun a b => a.1 ≠ b.1) :=
    (h₁p.pairwise_iff (fun h => Ne.symm h)).2 hne₁
  have hne₂ : l₂.Pairwise (fun a b => a.1 ≠ b.1) :=
    (hperm.pairwise_iff (fun h => Ne.symm h)).1 hne₁
  have hnes₂ : (l₂.insertionSort assetLE).Pairwise (fun a b => a.1 ≠ b.1) :=
    (h₂p.pairwise_iff (fun h => Ne.symm h)).2 hne₂
  have hst₁ : (l₁.insertionSort assetLE).Sorted assetLT := by
    have := List.Pairwise.and hs₁ hnes₁
    exact this.imp (fun hab => lt_of_le_of_ne hab.1 hab.2)
  have hst₂ : (l₂.insertionSort assetLE).Sorted assetLT := by
    have := List.Pairwise.and hs₂ hnes₂
    exact this.imp (fun hab => lt_of_le_of_ne hab.1 hab.2)
  exact List.eq_of_perm_of_sorted (h₁p.trans (hperm.trans h₂p.symm)) hst₁ hst₂

end Perpetual

/-- C10: `PositionState._hash` does not depend on the insertion order of the
assets mapping: two positions with equal public key, equal collateral balance,
and assets equal as sets of `(asset_id, asset)` pairs (distinct asset ids, as
in a dict) hash to the same bytes, because the messages are folded in
ascending asset-id order starting from 32 zero bytes. -/
theorem claim10_position_hash_order_independent (hash_func : Bytes → Bytes → Bytes)
    (p₁ p₂ : Perpetual.PositionState)
    (hk : p₁.public_key = p₂.public_key)
    (hc : p₁.collateral_balance = p₂.collateral_balance)
    (hperm : p₁.assets.Perm p₂.assets)
    (hnd : (p₁.assets.map Prod.fst).Nodup) :
    p₁.hashFact hash_func = p₂.hashFact hash_func := by
  simp only [Perpetual.PositionState.hashFact]
  rw [hk, hc, hperm.length_eq, Perpetual.insertionSort_eq_of_perm _ _ hperm hnd]

/-- Witness for C10: the same two assets listed in the two possible orders. -/
theorem claim10_position_hash_order_independent_witness :
    Perpetual.PositionState.hashFact (fun a b => a ++ b) ⟨1, 2, [(5, ⟨3, 4⟩), (2, ⟨9, 8⟩)]⟩ =
      Perpetual.PositionState.hashFact (fun a b => a ++ b) ⟨1, 2, [(2, ⟨9, 8⟩), (5, ⟨3, 4⟩)]⟩ :=
  claim10_position_hash_order_independent (fun a b => a ++ b)
    ⟨1, 2, [(5, ⟨3, 4⟩), (2, ⟨9, 8⟩)]⟩ ⟨1, 2, [(2, ⟨9, 8⟩), (5, ⟨3, 4⟩)]⟩
    rfl rfl (List.Perm.swap _ _ _) (by decide)

/-! ### C8: retry behavior of the gateway HTTP client -/

def failsRetry (p : HttpRetryPolicy) (o : HttpOutcome) : Bool :=
  match o with
  | .ok _ => false
  | .badHttp s => p.retry_error_codes.contains s
  | .timeout => true

theorem gatewayRetryFails_eq (o : HttpOutcome) :
    failsRetry gatewayRetryPolicy o = gatewayRetryFails o := by
  cases o <;> rfl

theorem sendLoop_spec (p : HttpRetryPolicy) (outcomes : Nat → HttpOutcome) :
    ∀ (k attempt r : Nat) (sleeps : List Nat), k ≤ r →
    (∀ j, j < k → failsRetry p (outcomes (attempt + j)) = true) →
    (failsRetry p (outcomes (attempt + k)) = false ∨ k = r) →
    sendLoop p outcomes attempt r sleeps =
      ((match outcomes (attempt + k) with
        | .ok t => .ok t
        | .badHttp s =>
          if k = r then .error (.tooManyAttempts p.retry_count (.badHttp s))
          else .error (.failure (.badHttp s))
        | .timeout =>
          if k = r then .error (.tooManyAttempts p.retry_count .timeout)
          else .error (.failure .timeout)),
       sleeps ++ (List.range k).map (fun j => p.timeout_gen (attempt + j))) := by
  intro k
  induction k with
  | zero =>
    intro attempt r sleeps hk hfail hstop
    rw [Nat.add_zero] at hstop ⊢
    cases r with
    | zero =>
      cases ho : outcomes attempt <;> simp [sendLoop, ho]
    | succ r' =>
      have hret : failsRetry p (outcomes attempt) = false := by
        rcases hstop with h | h
        · exact h
        · omega
      cases ho : outcomes attempt with
      | ok t => simp [sendLoop, ho]
      | badHttp s =>
        have hco : ¬ p.retry_error_codes.contains s = true := by
          rw [ho] at hret
          simp only [failsRetry] at hret
          intro hcontra
          rw [hret] at hcontra
          cases hcontra
        simp only [sendLoop, ho]
        rw [if_neg hco]
        rw [if_neg (show ¬ (0 : Nat) = r' + 1 from by omega)]
        simp
      | timeout =>
        rw [ho] at hret
        simp [failsRetry] at hret
  | succ k' ih =>
    intro attempt r sleeps hk hfail hstop
    cases r with
    | zero => omega
    | succ r' =>
      have h0 : failsRetry p (outcomes attempt) = true := by
        have := hfail 0 (Nat.succ_pos k')
        simpa using this
      have hfail' : ∀ j, j < k' → failsRetry p (outcomes (attempt + 1 + j)) = true := by
        intro j hj
        have := hfail (j + 1) (by omega)
        have harith : attempt + (j + 1) = attempt + 1 + j := by omega
        rwa [harith] at this
      have hstop' : failsRetry p (outcomes (attempt + 1 + k')) = false ∨ k' = r' := by
        rcases hstop with h | h
        · left
          have harith : attempt + (k' + 1) = attempt + 1 + k' := by omega
          rwa [harith] at h
        · right
          omega
      have hrange : (List.range (k' + 1)).map (fun j => p.timeout_gen (attempt + j)) =
          p.timeout_gen attempt :: (List.range k').map (fun j => p.timeout_gen (attempt + 1 + j)) := by
        rw [List.range_succ_eq_map, List.map_cons, List.map_map]
        refine congrArg₂ _ (by rw [Nat.add_zero]) ?_
        apply List.map_congr_left
        intro j _
        simp only [Function.comp_apply]
        refine congrArg _ (by omega)
      have harithk : attempt + (k' + 1) = attempt + 1 + k' := by omega
      cases ho : outcomes attempt with
      | ok t =>
        rw [ho] at h0
        simp [failsRetry] at h0
      | badHttp s =>
        have hco : p.retry_error_codes.contains s = true := by
          rw [ho] at h0
          simpa [failsRetry] using h0
        have step := ih (attempt + 1) r' (sleeps ++ [p.timeout_gen attempt]) (by omega) hfail' hstop'
        simp only [sendLoop, ho]
        rw [if_pos hco, step, harithk, hrange]
        simp only [Nat.add_right_cancel_iff, List.append_assoc, List.singleton_append]
      | timeout =>
        have step := ih (attempt + 1) r' (sleeps ++ [p.timeout_gen attempt]) (by omega) hfail' hstop'
        simp only [sendLoop, ho]
        rw [step, harithk, hrange]
        simp only [Nat.add_right_cancel_iff, List.append_assoc, List.singleton_append]

/-- C8 counterexample: under the availability-gateway client's policy the wait
after attempt `n` is `n + 1` seconds, so two consecutive retries sleep 1 s and
then 2 s — not 1 s between every pair of consecutive attempts as the claim
states. -/
theorem claim8_counterexample :
    (send_http_request gatewayRetryPolicy
        (fun n => if n < 2 then HttpOutcome.badHttp 502 else HttpOutcome.ok "x")).2 = [1, 2] ∧
    [1, 2] ≠ List.replicate 2 1 :=
  ⟨rfl, by decide⟩

/-- C8 as amended: for a gateway HTTP request, the client retries exactly on
status 502/503/504 or a timeout; the wait after attempt `n` is
`timeout_gen n = n + 1` seconds (not a fixed 1 s); at most
`retry_count + 1 = 10` attempts are made; the final attempt's failure is
wrapped in `TooManyAttempts`; a non-retryable error before the final attempt
propagates immediately, with no further attempts and no further sleeps. -/
theorem claim8_gateway_retry_behavior (outcomes : Nat → HttpOutcome) (k : Nat)
    (hk : k ≤ 9)
    (hfail : ∀ j, j < k → gatewayRetryFails (outcomes j) = true)
    (hstop : gatewayRetryFails (outcomes k) = false ∨ k = 9) :
    send_http_request gatewayRetryPolicy outcomes =
      ((match outcomes k with
        | .ok t => .ok t
        | .badHttp s =>
          if k = 9 then .error (.tooManyAttempts 9 (.badHttp s))
          else .error (.failure (.badHttp s))
        | .timeout =>
          if k = 9 then .error (.tooManyAttempts 9 .timeout)
          else .error (.failure .timeout)),
       (List.range k).map (fun j => j + 1)) := by
  have hfail' : ∀ j, j < k → failsRetry gatewayRetryPolicy (outcomes (0 + j)) = true := by
    intro j hj
    rw [Nat.zero_add, gatewayRetryFails_eq]
    exact hfail j hj
  have hstop' : failsRetry gatewayRetryPolicy (outcomes (0 + k)) = false ∨ k = 9 := by
    rw [Nat.zero_add, gatewayRetryFails_eq]
    exact hstop
  have h := sendLoop_spec gatewayRetryPolicy outcomes k 0 9 [] hk hfail' hstop'
  rw [send_http_request]
  rw [show gatewayRetryPolicy.retry_count = 9 from rfl] at h ⊢
  rw [h]
  rw [Nat.zero_add]
  simp only [List.nil_append]
  refine congrArg _ ?_
  apply List.map_congr_left
  intro j _
  show (0 + j) + 1 = j + 1
  omega

/-- Witness for C8 (amended): an immediately successful request makes one
attempt and sleeps never. -/
theorem claim8_gateway_retry_behavior_witness :
    (0 : Nat) ≤ 9 ∧
    send_http_request gatewayRetryPolicy (fun _ => HttpOutcome.ok "signature accepted") =
      (.ok "signature accepted", []) :=
  ⟨by decide, by
    have h := claim8_gateway_retry_behavior (fun _ => HttpOutcome.ok "signature accepted") 0
      (by decide) (fun j hj => absurd hj (Nat.not_lt_zero j)) (Or.inl rfl)
    simpa using h⟩

/-! ### Helper lemmas for the validation pipeline -/

theorem computeRoots_alookup (tU : String → Bytes → Bytes) (prevRoots : List (String × Bytes))
    (validated : List String) (rd : List (String × Bytes))
    (h : computeRoots tU prevRoots validated = some rd) (name : String) :
    alookup name rd =
      if name ∈ validated then (alookup name prevRoots).map (tU name) else none := by
  induction validated generalizing rd with
  | nil =>
    cases h
    simp
  | cons n rest ih =>
    simp only [computeRoots] at h
    cases hp : alookup n prevRoots with
    | none => rw [hp] at h; cases h
    | some r =>
      rw [hp] at h
      cases hrec : computeRoots tU prevRoots rest with
      | none => rw [hrec] at h; cases h
      | some rd' =>
        rw [hrec] at h
        injection h with h
        subst h
        by_cases hn : n = name
        · subst hn
          rw [alookup_cons, if_pos rfl, if_pos (List.mem_cons_self n rest), hp]
          rfl
        · rw [alookup_cons, if_neg hn, ih rd' hrec]
          by_cases hm : name ∈ rest
          · rw [if_pos hm, if_pos (List.mem_cons_of_mem n hm)]
          · rw [if_neg hm, if_neg ?_]
            rw [List.mem_cons]
            rintro (h1 | h1)
            · exact hn h1.symm
            · exact hm h1

theorem computeRoots_lookup_isSome (tU : String → Bytes → Bytes)
    (prevRoots : List (String × Bytes)) (validated : List String) (rd : List (String × Bytes))
    (h : computeRoots tU prevRoots validated = some rd) (name : String)
    (hmem : name ∈ validated) : ∃ r, alookup name prevRoots = some r := by
  induction validated generalizing rd with
  | nil => cases hmem
  | cons n rest ih =>
    simp only [computeRoots] at h
    cases hp : alookup n prevRoots with
    | none => rw [hp] at h; cases h
    | some r =>
      rw [hp] at h
      cases hrec : computeRoots tU prevRoots rest with
      | none => rw [hrec] at h; cases h
      | some rd' =>
        rcases List.mem_cons.1 hmem with h1 | h1
        · subst h1
          exact ⟨r, hp⟩
        · exact ih rd' hrec h1

theorem decodeRoots_alookup (rs : List (String × String)) (ds : List (String × Bytes))
    (h : decodeRoots rs = some ds) (k : String) :
    alookup k ds = (alookup k rs).bind bytesFromHex? := by
  induction rs generalizing ds with
  | nil =>
    cases h
    simp
  | cons p rest ih =>
    obtain ⟨k', v⟩ := p
    simp only [decodeRoots] at h
    cases hb : bytesFromHex? v with
    | none => rw [hb] at h; cases h
    | some b =>
      rw [hb] at h
      cases hrec : decodeRoots rest with
      | none => rw [hrec] at h; cases h
      | some ds' =>
        rw [hrec] at h
        injection h with h
        subst h
        by_cases hk : k' = k
        · subst hk
          simp [alookup_cons, hb]
        · simp [alookup_cons, hk, ih ds' hrec]

theorem checkRoots_order_not_compared (suRoots : List (String × String))
    (rd : List (String × Bytes)) (validated : List String) (names : List String)
    (cmp : List String)
    (hOrder : alookup "order" suRoots = some OBSOLETE_ORDER_TREE_ROOT_STR)
    (h : checkRoots suRoots rd validated names = some cmp) :
    "order" ∉ cmp := by
  induction names generalizing cmp with
  | nil =>
    cases h
    simp
  | cons n rest ih =>
    simp only [checkRoots] at h
    split at h
    · cases h
    · rename_i expected he
      by_cases hsent : n = "order" ∧ expected = OBSOLETE_ORDER_TREE_ROOT_STR
      · rw [if_pos hsent] at h
        exact ih cmp h
      · rw [if_neg hsent] at h
        by_cases hval : n ∈ validated
        · rw [if_pos hval] at h
          split at h
          · cases h
          · rename_i root hr
            by_cases hhex : bytesToHex root = expected
            · rw [if_pos hhex] at h
              split at h
              · cases h
              · rename_i cmp' hrec
                injection h with h
                subst h
                intro hmem
                rcases List.mem_cons.1 hmem with h1 | h1
                · subst h1
                  rw [he] at hOrder
                  injection hOrder with hOrder
                  exact hsent ⟨rfl, hOrder⟩
                · exact ih cmp' hrec h1
            · rw [if_neg hhex] at h
              cases h
        · rw [if_neg hval] at h
          exact ih cmp h

/-- Success characterization of `validate_core`: the sequence number advances
by one, and every root of the new batch info is the committee-computed root
for a validated name and the hex-decoded declared root otherwise. -/
theorem validate_core_spec (cfg : List (String × Nat)) (eR : String → Bytes)
    (tU : String → Bytes → Bytes) (prev : CommitteeBatchInfo) (su : StateUpdate)
    (vo : Bool) (vr : Option Bool) (bi : CommitteeBatchInfo) (cmp : List String)
    (h : validate_core cfg eR tU prev su vo vr = some (bi, cmp)) :
    bi.sequence_number = prev.sequence_number + 1 ∧
    ∀ name : String,
      alookup name bi.merkle_roots =
        if name ∈ validatedNames cfg vo vr
        then (alookup name (prevRootsWithRollup cfg eR prev)).map (tU name)
        else (alookup name su.roots).bind bytesFromHex? := by
  simp only [validate_core] at h
  split at h
  · cases h
  · split at h
    · cases h
    · split at h
      · cases h
      · split at h
        · cases h
        · rename_i rd hcr
          split at h
          · cases h
          · rename_i compared hck
            split at h
            · cases h
            · rename_i declared hdr
              simp only [Option.some.injEq, Prod.mk.injEq] at h
              obtain ⟨hbi, hcmp⟩ := h
              subst hbi
              refine ⟨rfl, ?_⟩
              intro name
              by_cases hmem : name ∈ validatedNames cfg vo vr
              · obtain ⟨r, hr⟩ := computeRoots_lookup_isSome tU _ _ rd hcr name hmem
                have hrd := computeRoots_alookup tU _ _ rd hcr name
                rw [if_pos hmem] at hrd
                rw [if_pos hmem, hr]
                show alookup name (dictUpdate declared rd) = some (tU name r)
                simp only [dictUpdate]
                rw [alookup_append, hrd, hr]
                rfl
              · have hrd := computeRoots_alookup tU _ _ rd hcr name
                rw [if_neg hmem] at hrd
                rw [if_neg hmem]
                show alookup name (dictUpdate declared rd) = _
                simp only [dictUpdate]
                rw [alookup_append, hrd]
                exact decodeRoots_alookup su.roots declared hdr name

/-- Success of `validate_core` also pins the list of compared names to a
successful run of the verification loop. -/
theorem validate_core_checkRoots (cfg : List (String × Nat)) (eR : String → Bytes)
    (tU : String → Bytes → Bytes) (prev : CommitteeBatchInfo) (su : StateUpdate)
    (vo : Bool) (vr : Option Bool) (bi : CommitteeBatchInfo) (cmp : List String)
    (h : validate_core cfg eR tU prev su vo vr = some (bi, cmp)) :
    ∃ rd, checkRoots su.roots rd (validatedNames cfg vo vr) (cfg.map Prod.fst) = some cmp := by
  simp only [validate_core] at h
  split at h
  · cases h
  · split at h
    · cases h
    · split at h
      · cases h
      · split at h
        · cases h
        · rename_i rd hcr
          split at h
          · cases h
          · rename_i compared hck
            split at h
            · cases h
            · rename_i declared hdr
              simp only [Option.some.injEq, Prod.mk.injEq] at h
              obtain ⟨hbi, hcmp⟩ := h
              subst hcmp
              exact ⟨rd, hck⟩

theorem get_cbi_fst_getValue (storage : Storage) (id : Int) (k : String)
    (hk : k ≠ committee_batch_info_key id) :
    ((get_committee_batch_info storage id).1).getValue k = storage.getValue k := by
  unfold get_committee_batch_info
  split
  · rfl
  · split
    · exact Storage.getValue_setValue_ne storage k _ _ (fun h => hk h.symm)
    · rfl

/-- The structure of `validate_data_availability` as one equation: the storage
read of the previous batch info, then the pure core, then (on success) the
single write of the new batch info. -/
theorem validate_data_availability_eq (cfg : List (String × Nat)) (eR : String → Bytes)
    (tU : String → Bytes → Bytes) (storage : Storage) (batch_id : Int) (su : StateUpdate)
    (vo : Bool) (vr : Option Bool) :
    validate_data_availability cfg eR tU storage batch_id su vo vr =
      match (get_committee_batch_info storage su.prev_batch_id).2 with
      | none => ⟨(get_committee_batch_info storage su.prev_batch_id).1, none⟩
      | some prev =>
        match validate_core cfg eR tU prev su vo vr with
        | none => ⟨(get_committee_batch_info storage su.prev_batch_id).1, none⟩
        | some (bi, compared) =>
          ⟨((get_committee_batch_info storage su.prev_batch_id).1).setValue
            (committee_batch_info_key batch_id) (.info bi), some (bi, compared)⟩ := by
  unfold validate_data_availability
  rcases get_committee_batch_info storage su.prev_batch_id with ⟨storage1, prevOpt⟩
  cases prevOpt with
  | none => rfl
  | some prev =>
    cases validate_core cfg eR tU prev su vo vr with
    | none => rfl
    | some pr =>
      obtain ⟨bi, cmp⟩ := pr
      rfl

theorem validate_outcome_eq (cfg : List (String × Nat)) (eR : String → Bytes)
    (tU : String → Bytes → Bytes) (storage : Storage) (batch_id : Int) (su : StateUpdate)
    (vo : Bool) (vr : Option Bool) :
    (validate_data_availability cfg eR tU storage batch_id su vo vr).outcome =
      match (get_committee_batch_info storage su.prev_batch_id).2 with
      | none => none
      | some prev => validate_core cfg eR tU prev su vo vr := by
  have heq := validate_data_availability_eq cfg eR tU storage batch_id su vo vr
  split at heq
  · rw [heq]
  · split at heq
    · rename_i hvc
      rw [heq, hvc]
    · rename_i bi2 cmp2 hvc
      rw [heq, hvc]

theorem validate_getValue_of_none (cfg : List (String × Nat)) (eR : String → Bytes)
    (tU : String → Bytes → Bytes) (storage : Storage) (batch_id : Int) (su : StateUpdate)
    (vo : Bool) (vr : Option Bool) (k : String)
    (hk : k ≠ committee_batch_info_key su.prev_batch_id)
    (h : (validate_data_availability cfg eR tU storage batch_id su vo vr).outcome = none) :
    ((validate_data_availability cfg eR tU storage batch_id su vo vr).storage).getValue k =
      storage.getValue k := by
  have hst := get_cbi_fst_getValue storage su.prev_batch_id k hk
  have heq := validate_data_availability_eq cfg eR tU storage batch_id su vo vr
  split at heq
  · rw [heq]
    exact hst
  · split at heq
    · rw [heq]
      exact hst
    · rename_i bi2 cmp2 hvc
      rw [heq] at h
      cases h

theorem validate_getValue_of_some (cfg : List (String × Nat)) (eR : String → Bytes)
    (tU : String → Bytes → Bytes) (storage : Storage) (batch_id : Int) (su : StateUpdate)
    (vo : Bool) (vr : Option Bool) (bi : CommitteeBatchInfo) (cmp : List String)
    (h : (validate_data_availability cfg eR tU storage batch_id su vo vr).outcome
      = some (bi, cmp)) :
    ((validate_data_availability cfg eR tU storage batch_id su vo vr).storage).getValue
        (committee_batch_info_key batch_id) = some (.info bi) := by
  have heq := validate_data_availability_eq cfg eR tU storage batch_id su vo vr
  split at heq
  · rw [heq] at h
    cases h
  · split at heq
    · rw [heq] at h
      cases h
    · rename_i bi2 cmp2 hvc
      rw [heq] at h ⊢
      injection h with h2
      injection h2 with hbi hcmp
      subst hbi
      exact Storage.getValue_setValue_self _ _ _

/-- One-equation form of a polling-loop pass once a batch is ready and the
third-party hook has accepted: validate, then submit, advancing the batch id
only when the submission succeeds. -/
theorem run_iteration_eq (cfg : List (String × Nat)) (eR : String → Bytes)
    (tU : String → Bytes → Bytes) (storage : Storage) (next_batch_id : Int) (su : StateUpdate)
    (sendOk : Bool) (vo : Bool) (vr : Option Bool) :
    run_iteration cfg eR tU storage next_batch_id (some su) true sendOk vo vr =
      match (validate_data_availability cfg eR tU storage next_batch_id su vo vr).outcome with
      | none =>
        ((validate_data_availability cfg eR tU storage next_batch_id su vo vr).storage,
          next_batch_id)
      | some _ =>
        if sendOk then
          (((validate_data_availability cfg eR tU storage next_batch_id su vo vr).storage).setValue
              next_batch_id_key (.intVal (next_batch_id + 1)),
            next_batch_id + 1)
        else
          ((validate_data_availability cfg eR tU storage next_batch_id su vo vr).storage,
            next_batch_id) := rfl

/-- C2 counterexample: a successful validation followed by a failed signature
submission leaves the new batch info written under
`new_committee_batch_info:0` even though the iteration failed (the batch id
does not advance), contradicting the claim that a failed iteration writes no
new batch info. -/
theorem claim2_counterexample :
    ((run_iteration [("vault", 2), ("order", 3)] (fun _ => [])
          (fun n _ => if n = "vault" then [171] else [205])
          [(committee_batch_info_key (-1), .info ⟨[("vault", [0]), ("order", [1])], 7⟩)]
          0 (some ⟨-1, [("vault", "ab"), ("order", "cd")]⟩) true false true none).1).getValue
        (committee_batch_info_key 0) =
      some (.info ⟨[("vault", [171]), ("order", [205]), ("vault", [171]), ("order", [205])],
        8⟩) ∧
    (run_iteration [("vault", 2), ("order", 3)] (fun _ => [])
          (fun n _ => if n = "vault" then [171] else [205])
          [(committee_batch_info_key (-1), .info ⟨[("vault", [0]), ("order", [1])], 7⟩)]
          0 (some ⟨-1, [("vault", "ab"), ("order", "cd")]⟩) true false true none).2 = 0 ∧
    Storage.getValue
        [(committee_batch_info_key (-1),
          StorageValue.info ⟨[("vault", [0]), ("order", [1])], 7⟩)]
        (committee_batch_info_key 0) = none :=
  ⟨by decide, by decide, by decide⟩

/-- C2 as amended: a not-ready batch, a third-party rejection, or a validation
failure leaves the iteration with no new batch info written for this batch id
(only the legacy-key migration of the referenced previous batch may touch
storage) and the batch id unchanged; but a failed signature submission happens
after the persistence point, so the new batch info is already written even
though the batch id does not advance. -/
theorem claim2_iteration_write_discipline (cfg : List (String × Nat)) (eR : String → Bytes)
    (tU : String → Bytes → Bytes) (storage : Storage) (next_batch_id : Int) (su : StateUpdate)
    (tp sendOk : Bool) (vo : Bool) (vr : Option Bool) :
    run_iteration cfg eR tU storage next_batch_id none tp sendOk vo vr =
      (storage, next_batch_id) ∧
    (tp = false →
      run_iteration cfg eR tU storage next_batch_id (some su) tp sendOk vo vr =
        (storage, next_batch_id)) ∧
    ((validate_data_availability cfg eR tU storage next_batch_id su vo vr).outcome = none →
      committee_batch_info_key next_batch_id ≠ committee_batch_info_key su.prev_batch_id →
      ((run_iteration cfg eR tU storage next_batch_id (some su) true sendOk vo vr).1).getValue
          (committee_batch_info_key next_batch_id) =
        storage.getValue (committee_batch_info_key next_batch_id) ∧
      (run_iteration cfg eR tU storage next_batch_id (some su) true sendOk vo vr).2 =
        next_batch_id) ∧
    (∀ (bi : CommitteeBatchInfo) (cmp : List String),
      (validate_data_availability cfg eR tU storage next_batch_id su vo vr).outcome =
        some (bi, cmp) →
      ((run_iteration cfg eR tU storage next_batch_id (some su) true false vo vr).1).getValue
          (committee_batch_info_key next_batch_id) = some (.info bi) ∧
      (run_iteration cfg eR tU storage next_batch_id (some su) true false vo vr).2 =
        next_batch_id) := by
  refine ⟨rfl, ?_, ?_, ?_⟩
  · intro htp
    subst htp
    rfl
  · intro hnone hne
    rw [run_iteration_eq, hnone]
    exact ⟨validate_getValue_of_none cfg eR tU storage next_batch_id su vo vr
      (committee_batch_info_key next_batch_id) hne hnone, rfl⟩
  · intro bi cmp hsome
    rw [run_iteration_eq, hsome]
    exact ⟨validate_getValue_of_some cfg eR tU storage next_batch_id su vo vr bi cmp hsome,
      rfl⟩

/-- Witness for C2 (amended), exercising the post-persistence-failure clause
on a concrete run. -/
theorem claim2_iteration_write_discipline_witness :
    ((run_iteration [("vault", 2), ("order", 3)] (fun _ => [])
          (fun n _ => if n = "vault" then [171] else [205])
          [(committee_batch_info_key (-1), .info ⟨[("vault", [0]), ("order", [1])], 7⟩)]
          0 (some ⟨-1, [("vault", "ab"), ("order", "cd")]⟩) true false true none).1).getValue
        (committee_batch_info_key 0) =
      some (.info ⟨[("vault", [171]), ("order", [205]), ("vault", [171]), ("order", [205])],
        8⟩) :=
  ((claim2_iteration_write_discipline [("vault", 2), ("order", 3)] (fun _ => [])
      (fun n _ => if n = "vault" then [171] else [205])
      [(committee_batch_info_key (-1), .info ⟨[("vault", [0]), ("order", [1])], 7⟩)]
      0 ⟨-1, [("vault", "ab"), ("order", "cd")]⟩ true false true none).2.2.2
    ⟨[("vault", [171]), ("order", [205]), ("vault", [171]), ("order", [205])], 8⟩
    ["vault", "order"] (by decide)).1

/-- C4: on a successful validation, the persisted batch info's roots are the
operator's declared roots (hex-decoded) overwritten, for every name in the
validated set, by the root the committee computed via `update` from the
previous batch's roots; every other name keeps the declared value. -/
theorem claim4_roots_composition (cfg : List (String × Nat)) (eR : String → Bytes)
    (tU : String → Bytes → Bytes) (storage : Storage) (batch_id : Int) (su : StateUpdate)
    (vo : Bool) (vr : Option Bool) (storage' : Storage) (prev : CommitteeBatchInfo)
    (bi : CommitteeBatchInfo) (cmp : List String)
    (hget : get_committee_batch_info storage su.prev_batch_id = (storage', some prev))
    (h : (validate_data_availability cfg eR tU storage batch_id su vo vr).outcome =
      some (bi, cmp)) :
    ∀ name : String,
      alookup name bi.merkle_roots =
        if name ∈ validatedNames cfg vo vr
        then (alookup name (prevRootsWithRollup cfg eR prev)).map (tU name)
        else (alookup name su.roots).bind bytesFromHex? := by
  rw [validate_outcome_eq, hget] at h
  exact (validate_core_spec cfg eR tU prev su vo vr bi cmp h).2

/-- Witness for C4 at a concrete successful iteration, read back at `order`. -/
theorem claim4_roots_composition_witness :
    alookup "order"
        (CommitteeBatchInfo.mk
          [("vault", [171]), ("order", [205]), ("vault", [171]), ("order", [205])]
          8).merkle_roots =
      if "order" ∈ validatedNames [("vault", 2), ("order", 3)] true none
      then (alookup "order"
          (prevRootsWithRollup [("vault", 2), ("order", 3)] (fun _ => [])
            ⟨[("vault", [0]), ("order", [1])], 7⟩)).map
        ((fun n _ => if n = "vault" then [171] else [205]) "order")
      else (alookup "order"
          (⟨-1, [("vault", "ab"), ("order", "cd")]⟩ : StateUpdate).roots).bind bytesFromHex? :=
  claim4_roots_composition [("vault", 2), ("order", 3)] (fun _ => [])
    (fun n _ => if n = "vault" then [171] else [205])
    [(committee_batch_info_key (-1), .info ⟨[("vault", [0]), ("order", [1])], 7⟩)]
    0 ⟨-1, [("vault", "ab"), ("order", "cd")]⟩ true none
    [(committee_batch_info_key (-1), .info ⟨[("vault", [0]), ("order", [1])], 7⟩)]
    ⟨[("vault", [0]), ("order", [1])], 7⟩
    ⟨[("vault", [171]), ("order", [205]), ("vault", [171]), ("order", [205])], 8⟩
    ["vault", "order"] (by decide) (by decide) "order"

/-- C5: the persisted batch info's sequence number is one more than that of
the batch info read at `state_update.prev_batch_id`, and the initial batch
info persisted at id `-1` has sequence number `-1`. -/
theorem claim5_sequence_numbers :
    (∀ (cfg : List (String × Nat)) (eR : String → Bytes) (tU : String → Bytes → Bytes)
        (storage : Storage) (batch_id : Int) (su : StateUpdate) (vo : Bool)
        (vr : Option Bool) (storage' : Storage) (prev bi : CommitteeBatchInfo)
        (cmp : List String),
      get_committee_batch_info storage su.prev_batch_id = (storage', some prev) →
      (validate_data_availability cfg eR tU storage batch_id su vo vr).outcome =
        some (bi, cmp) →
      bi.sequence_number = prev.sequence_number + 1) ∧
    (∀ (cfg : List (String × Nat)) (eR : String → Bytes) (storage : Storage)
        (bi : CommitteeBatchInfo),
      (compute_initial_batch_info cfg eR storage).getValue (committee_batch_info_key (-1)) =
        some (.info bi) →
      bi.sequence_number = -1) := by
  constructor
  · intro cfg eR tU storage batch_id su vo vr storage' prev bi cmp hget h
    rw [validate_outcome_eq, hget] at h
    exact (validate_core_spec cfg eR tU prev su vo vr bi cmp h).1
  · intro cfg eR storage bi h
    unfold compute_initial_batch_info at h
    rw [Storage.getValue_setValue_self] at h
    injection h with h
    injection h with h
    rw [← h]

/-- Witness for C5 on the concrete successful iteration of the model. -/
theorem claim5_sequence_numbers_witness :
    (CommitteeBatchInfo.mk
        [("vault", [171]), ("order", [205]), ("vault", [171]), ("order", [205])]
        8).sequence_number =
      (CommitteeBatchInfo.mk [("vault", [0]), ("order", [1])] 7).sequence_number + 1 :=
  claim5_sequence_numbers.1 [("vault", 2), ("order", 3)] (fun _ => [])
    (fun n _ => if n = "vault" then [171] else [205])
    [(committee_batch_info_key (-1), .info ⟨[("vault", [0]), ("order", [1])], 7⟩)]
    0 ⟨-1, [("vault", "ab"), ("order", "cd")]⟩ true none
    [(committee_batch_info_key (-1), .info ⟨[("vault", [0]), ("order", [1])], 7⟩)]
    ⟨[("vault", [0]), ("order", [1])], 7⟩
    ⟨[("vault", [171]), ("order", [205]), ("vault", [171]), ("order", [205])], 8⟩
    ["vault", "order"] (by decide) (by decide)

/-- C1 counterexample: with `validate_orders` enabled and the declared order
root equal to the DEADBEEF sentinel, the committee still stores its own
computed order root (here `[7]`), not the sentinel hex-decoded — the
comparison is skipped, but the stored value is not the operator's. -/
theorem claim1_counterexample :
    alookup "order"
        (⟨0, [("vault", "ab"), ("order", OBSOLETE_ORDER_TREE_ROOT_STR)]⟩ :
          StateUpdate).roots =
      some OBSOLETE_ORDER_TREE_ROOT_STR ∧
    (validate_core [("vault", 1), ("order", 1)] (fun _ => [])
          (fun n _ => if n = "vault" then [171] else [7])
          ⟨[("vault", [1]), ("order", [2])], 7⟩
          ⟨0, [("vault", "ab"), ("order", OBSOLETE_ORDER_TREE_ROOT_STR)]⟩ true none).map
        (fun p => alookup "order" p.1.merkle_roots) =
      some (some [7]) ∧
    bytesFromHex? OBSOLETE_ORDER_TREE_ROOT_STR ≠ some [7] :=
  ⟨by decide, by decide, by decide⟩

/-- C1 as amended: when the declared `order` root is the sentinel, the
verification loop never compares the order root; the persisted order root is
the sentinel hex-decoded only when `order` is outside the validated set
(`validate_orders` off) — when `order` is validated, the committee-computed
order root is stored instead. -/
theorem claim1_sentinel_handling (cfg : List (String × Nat)) (eR : String → Bytes)
    (tU : String → Bytes → Bytes) (prev : CommitteeBatchInfo) (su : StateUpdate)
    (vo : Bool) (vr : Option Bool) (bi : CommitteeBatchInfo) (cmp : List String)
    (hord : alookup "order" su.roots = some OBSOLETE_ORDER_TREE_ROOT_STR)
    (h : validate_core cfg eR tU prev su vo vr = some (bi, cmp)) :
    "order" ∉ cmp ∧
    alookup "order" bi.merkle_roots =
      (if "order" ∈ validatedNames cfg vo vr
       then (alookup "order" (prevRootsWithRollup cfg eR prev)).map (tU "order")
       else bytesFromHex? OBSOLETE_ORDER_TREE_ROOT_STR) := by
  constructor
  · obtain ⟨rd, hck⟩ := validate_core_checkRoots cfg eR tU prev su vo vr bi cmp h
    exact checkRoots_order_not_compared su.roots rd _ _ cmp hord hck
  · have hc := (validate_core_spec cfg eR tU prev su vo vr bi cmp h).2 "order"
    by_cases hmem : "order" ∈ validatedNames cfg vo vr
    · rw [if_pos hmem] at hc ⊢
      exact hc
    · rw [if_neg hmem] at hc ⊢
      rw [hord] at hc
      exact hc

/-- Witness for C1 (amended): `validate_orders` off, a declared sentinel
order root; the run succeeds with no comparison of `order` and the sentinel
stored hex-decoded. -/
theorem claim1_sentinel_handling_witness :
    "order" ∉ ["vault"] ∧
    alookup "order"
        (CommitteeBatchInfo.mk
          [("vault", [171]), ("vault", [171]),
            ("order", [222, 173, 190, 239, 222, 173, 190, 239, 222, 173, 190, 239,
              222, 173, 190, 239, 222, 173, 190, 239, 222, 173, 190, 239,
              222, 173, 190, 239, 222, 173, 190, 239])]
          8).merkle_roots =
      (if "order" ∈ validatedNames [("vault", 1), ("order", 1)] false none
       then (alookup "order"
           (prevRootsWithRollup [("vault", 1), ("order", 1)] (fun _ => [])
             ⟨[("vault", [1]), ("order", [2])], 7⟩)).map
         ((fun n _ => if n = "vault" then [171] else [7]) "order")
       else bytesFromHex? OBSOLETE_ORDER_TREE_ROOT_STR) :=
  claim1_sentinel_handling [("vault", 1), ("order", 1)] (fun _ => [])
    (fun n _ => if n = "vault" then [171] else [7])
    ⟨[("vault", [1]), ("order", [2])], 7⟩
    ⟨0, [("vault", "ab"), ("order", OBSOLETE_ORDER_TREE_ROOT_STR)]⟩ false none
    (CommitteeBatchInfo.mk
      [("vault", [171]), ("vault", [171]),
        ("order", [222, 173, 190, 239, 222, 173, 190, 239, 222, 173, 190, 239,
          222, 173, 190, 239, 222, 173, 190, 239, 222, 173, 190, 239,
          222, 173, 190, 239, 222, 173, 190, 239])]
      8)
    ["vault"] (by decide) (by decide)
